import Mathlib

/-!
Verification of the wordclouds placement engine.

Shallow embedding of `wordcloud.go` (package `wordclouds`).  Go `float64`
values are modelled as rationals (`ℚ`); the geometric claims under study
are order/arithmetic properties that do not depend on floating-point
rounding.  Code of the repository that is referenced from `wordcloud.go`
but whose source file is not part of `src/` (the `Box` geometry
predicates, the spatial hash map, the candidate-circle generator and the
options record) is modelled from the specification; every such
definition is marked `Modelled from the spec:` in its doc comment.
-/

namespace Wordclouds

/-- A candidate point, as produced by the candidate ring generator
(`point` in the Go source). -/
structure Point where
  x : ℚ
  y : ℚ
deriving DecidableEq, Repr

/-- Axis-aligned rectangle (`Box` in the Go source).  Field order follows
the Go struct literal used in `Place`: top, left, right, bottom. -/
structure Box where
  top : ℚ
  left : ℚ
  right : ℚ
  bottom : ℚ
deriving DecidableEq, Repr

/-- Modelled from the spec: `Box.overlaps` (the Box geometry source file
is not under `src/`).  Spec §4.1: true iff the two rectangles'
projections intersect on both axes, with the strict-inequality
convention (touching edges do not overlap). -/
def Box.overlaps (a b : Box) : Prop :=
  a.left < b.right ∧ b.left < a.right ∧ a.bottom < b.top ∧ b.bottom < a.top

instance (a b : Box) : Decidable (a.overlaps b) := by
  unfold Box.overlaps; infer_instance

/-- Modelled from the spec: `Box.fits` (the Box geometry source file is
not under `src/`).  Spec §4.1: true iff the rectangle lies entirely
within `[0, canvasWidth] × [0, canvasHeight]`. -/
def Box.fits (b : Box) (canvasWidth canvasHeight : ℚ) : Prop :=
  0 ≤ b.left ∧ b.right ≤ canvasWidth ∧ 0 ≤ b.bottom ∧ b.top ≤ canvasHeight

instance (b : Box) (cw ch : ℚ) : Decidable (b.fits cw ch) := by
  unfold Box.fits; infer_instance

/-- Modelled from the spec: the spatial occupancy index
(`spatialHashMap.TestCollision`, source file not under `src/`).
Spec §4.2: the index answers "does any rectangle already recorded
intersect this candidate rectangle?"; the bucketed structure is a pure
query optimisation, so the index is modelled as the list of recorded
rectangles and `TestCollision` as the exact any-overlap query
(`wordcloud.go` always passes `overlaps` as the predicate). -/
def TestCollision (grid : List Box) (b : Box) : Prop :=
  ∃ a ∈ grid, a.overlaps b

instance (grid : List Box) (b : Box) : Decidable (TestCollision grid b) := by
  unfold TestCollision; infer_instance

/-- The candidate rectangle built from a position and a word box, as in
`testRadius` / `nextRandom` (`wordcloud.go:332-335,494-497`):
`Top = y + height/2`, `Left = x - width/2`, `Right = x + width/2`,
`Bottom = y - height/2`. -/
def candidateBox (x y width height : ℚ) : Box :=
  ⟨y + height / 2, x - width / 2, x + width / 2, y - height / 2⟩

/-- A position is valid for a word box when the candidate rectangle fits
the canvas and does not collide with any recorded rectangle — the test
performed for each point in `testRadius` and `nextRandom`. -/
def validPosition (grid : List Box) (cw ch x y width height : ℚ) : Prop :=
  (candidateBox x y width height).fits cw ch ∧
    ¬ TestCollision grid (candidateBox x y width height)

instance (grid : List Box) (cw ch x y width height : ℚ) :
    Decidable (validPosition grid cw ch x y width height) := by
  unfold validPosition; infer_instance

/-- Result record sent from placement workers (`res` in the Go source). -/
structure Res where
  radius : ℚ
  x : ℚ
  y : ℚ
  failed : Bool
deriving DecidableEq, Repr

/-- Loop body of `testRadius` (`wordcloud.go:489-514`): walk the points,
carrying the Go loop variables `x`, `y` (zero-initialised), and return
the first valid position; if none is valid return a failed result
holding the last tested coordinates. -/
def testRadiusAux (grid : List Box) (cw ch radius width height : ℚ) :
    List Point → ℚ → ℚ → Res
  | [], x, y => ⟨radius, x, y, true⟩
  | p :: ps, _, _ =>
    if validPosition grid cw ch p.x p.y width height then
      ⟨radius, p.x, p.y, false⟩
    else
      testRadiusAux grid cw ch radius width height ps p.x p.y

/-- Function `testRadius` (`wordcloud.go:485-521`): test a series of points on a
circle and return as soon as there is a match. -/
def testRadius (grid : List Box) (cw ch radius : ℚ) (points : List Point)
    (width height : ℚ) : Res :=
  testRadiusAux grid cw ch radius width height points 0 0

/-- The aggregator's scan over the radii list after each arriving result
(`wordcloud.go:463-473`): walk `radii` in order; if some radius has not
reported yet the aggregator must keep waiting (`none`); the first
reported non-failed radius is returned as the final success
(`some (some r)`); if every radius has reported a failure the search has
failed exhaustively (`some none`).  Each radius's result is deterministic
(`testRadius` on that ring against the index frozen for the whole call),
so the `results` map is modelled by the function `result`. -/
def scanRadii (result : ℚ → Res) (done : List ℚ) : List ℚ → Option (Option Res)
  | [] => some none
  | r :: rest =>
    if r ∈ done then
      if (result r).failed then scanRadii result done rest
      else some (some (result r))
    else none

/-- The aggregation loop of `nextPos` (`wordcloud.go:456-481`): worker
results arrive in an arbitrary order (`arrivals`); each arrival is marked
done and the radii list rescanned.  Returns the set of radii reported at
decision time together with the decision (`some res` success, `none`
exhaustive failure); the outer `none` means the arrival sequence ended
before a decision was reached (with a full arrival permutation this does
not happen, see `aggLoop_decided`). -/
def aggLoop (radii : List ℚ) (result : ℚ → Res) :
    List ℚ → List ℚ → Option (List ℚ × Option Res)
  | [], _ => none
  | a :: rest, done =>
    let done2 := a :: done
    match scanRadii result done2 radii with
    | none => aggLoop radii result rest done2
    | some d => some (done2, d)

/-- Function `nextPos` (`wordcloud.go:370-482`), concurrent mode.  The worker pool
computes `testRadius` for every dispatched radius; scheduling
nondeterminism is modelled by the `arrivals` parameter, the order in
which per-radius results reach the aggregator.  The ring contents come
from the candidate ring generator — modelled from the spec as the
function `positions` (`circle.positions()`, source file not under
`src/`; spec §4.3: a fixed immutable point list per radius). -/
def nextPos (grid : List Box) (cw ch : ℚ) (radii : List ℚ)
    (positions : ℚ → List Point) (width height : ℚ) (arrivals : List ℚ) :
    Option (List ℚ × Option Res) :=
  aggLoop radii (fun r => testRadius grid cw ch r (positions r) width height)
    arrivals []

/-- The rectangle that `Place` inserts into the occupancy index on
success (`wordcloud.go:285-290`): the Go struct literal
`Box{y + height/2 + 0.3*height, x - width/2, x + width/2,
math.Max(y-height/2, 0)}` (float literal `0.3` as `3/10`).  Note the top
edge exceeds the tested candidate box by `0.3*height`. -/
def insertedBox (x y width height : ℚ) : Box :=
  ⟨y + height / 2 + 3 / 10 * height, x - width / 2, x + width / 2,
    max (y - height / 2) 0⟩

/-- Per-run mutable word-record columns (`WordDataCoArrays.Pos`/`.Rect`)
plus the occupancy index.  The Go sentinel `notPlacedPos`
(`complex(-Inf, 0)`) is modelled by `none` in the `pos` column. -/
structure RunSt where
  grid : List Box
  pos : List (Option (ℚ × ℚ))
  rect : List (ℚ × ℚ)
deriving DecidableEq, Repr

/-- Function `Place` (`wordcloud.go:260-304`).  Glyph measurement is external
(`MeasureString`); `measured idx` is word `idx`'s measured (w, h), to
which `Place` adds 5 on each axis before searching.  On failure the word
is recorded unplaced (`Pos = notPlacedPos`, `Rect = 0`) and the index is
untouched.  On success the position and rectangle are recorded
(anchored with ax = ay = 0.5) and the occupied rectangle inserted; for
glyphs with `height > 40` the inserted rectangle is replaced by the
pixel-scan refinement — an external collaborator (spec §1), modelled by
the abstract function `refine`. -/
def Place (cw ch : ℚ) (radii : List ℚ) (positions : ℚ → List Point)
    (refine : Box → List Box) (measured : ℕ → ℚ × ℚ) (arrivals : List ℚ)
    (idx : ℕ) (st : RunSt) : Bool × RunSt :=
  let width := (measured idx).1 + 5
  let height := (measured idx).2 + 5
  match nextPos st.grid cw ch radii positions width height arrivals with
  | some (_, some r) =>
    let box := insertedBox r.x r.y width height
    (true,
      { grid := if 40 < height then st.grid ++ refine box else st.grid ++ [box],
        pos := st.pos.set idx (some (r.x - (width - 5) / 2, r.y - (height - 5) / 2)),
        rect := st.rect.set idx (width - 5, height - 5) })
  | _ =>
    (false, { st with pos := st.pos.set idx none, rect := st.rect.set idx (0, 0) })

/-- The driving loop of `Draw` (`wordcloud.go:307-322`), generic in the
per-word placement step and its state: iterate the word indices, reset
the consecutive-miss counter on success, increment it on failure and
stop the whole pass as soon as it exceeds 10.  Returns the final state
and the list of word indices actually attempted. -/
def drawLoop {σ : Type} (place : ℕ → σ → Bool × σ) :
    List ℕ → ℕ → σ → σ × List ℕ
  | [], _, st => (st, [])
  | i :: rest, misses, st =>
    let r := place i st
    if r.1 then
      let q := drawLoop place rest 0 r.2
      (q.1, i :: q.2)
    else if misses + 1 > 10 then (r.2, [i])
    else
      let q := drawLoop place rest (misses + 1) r.2
      (q.1, i :: q.2)

/-- Function `Draw` (`wordcloud.go:307-322`) over the placement model: run the
driving loop over word indices `0 .. l-1` starting from `st`. -/
def drawModel (cw ch : ℚ) (radii : List ℚ) (positions : ℚ → List Point)
    (refine : Box → List Box) (measured : ℕ → ℚ × ℚ) (arrivals : List ℚ)
    (l : ℕ) (st : RunSt) : RunSt × List ℕ :=
  drawLoop (Place cw ch radii positions refine measured arrivals)
    (List.range l) 0 st

/-- Loop of `nextRandom` (`wordcloud.go:324-351`), counting attempts:
`tries` is the Go counter (incremented before each sample is tested),
`fuel` the remaining budget (`5000000 - tries`).  The process-wide
random generator is modelled from the spec (§9 design note) as the
sample stream `samples`, indexed by the attempt number. -/
def nextRandomLoop (grid : List Box) (cw ch width height : ℚ)
    (samples : ℕ → ℚ × ℚ) : ℕ → ℕ → Option (ℚ × ℚ) × ℕ
  | 0, tries => (none, tries)
  | fuel + 1, tries =>
    let s := samples tries
    if validPosition grid cw ch s.1 s.2 width height then (some (s.1, s.2), tries + 1)
    else nextRandomLoop grid cw ch width height samples fuel (tries + 1)

/-- Function `nextRandom` (`wordcloud.go:324-351`): uniform-random fallback
search with a 5,000,000-attempt budget; returns the found position (if
any) and the number of attempts consumed. -/
def nextRandom (grid : List Box) (cw ch width height : ℚ)
    (samples : ℕ → ℚ × ℚ) : Option (ℚ × ℚ) × ℕ :=
  nextRandomLoop grid cw ch width height samples 5000000 0

/-- Outcome of engine construction (`NewWordcloud`,
`wordcloud.go:150-172`): `panicEmpty` models the out-of-range access
`sortedWordList.Count[0]` on an empty word list; `panicNotSorted` models
the explicit `panic("not sorted: ...")`; `ok sizes` carries the font
sizes assigned by the sizing pass. -/
inductive SizePassResult where
  | panicEmpty : SizePassResult
  | panicNotSorted : SizePassResult
  | ok : List ℚ → SizePassResult
deriving DecidableEq, Repr

/-- The sizing loop of `NewWordcloud` (`wordcloud.go:161-172`): `m` is
the running previous count (initially `Count[0]`); abort if the current
count exceeds it, otherwise assign
`size = sizeFn(count / wordCountMax) * maxSize` clamped from below to
`minSize`. -/
def sizeLoop (sizeFn : ℚ → ℚ) (minSize maxSize wordCountMax : ℚ) :
    List ℤ → ℤ → Option (List ℚ)
  | [], _ => some []
  | c :: rest, m =>
    if c > m then none
    else
      let s := sizeFn ((c : ℚ) / wordCountMax) * maxSize
      let s2 := if s < minSize then minSize else s
      match sizeLoop sizeFn minSize maxSize wordCountMax rest c with
      | none => none
      | some tl => some (s2 :: tl)

/-- The size-assignment pass of `NewWordcloud` (`wordcloud.go:150-172`):
read `Count[0]` (aborting on an empty list), then run the sizing loop
over all counts with `m` initialised to `Count[0]`. -/
def newWordcloudSizes (counts : List ℤ) (sizeFn : ℚ → ℚ)
    (minSize maxSize : ℚ) : SizePassResult :=
  match counts with
  | [] => .panicEmpty
  | c0 :: _ =>
    match sizeLoop sizeFn minSize maxSize (c0 : ℚ) counts c0 with
    | none => .panicNotSorted
    | some sizes => .ok sizes

/-- The size assigned to a single count by the body of the sizing loop
(`wordcloud.go:166-169`): the interpolated size clamped from below to
the minimum font size. -/
def assignSize (sizeFn : ℚ → ℚ) (minSize maxSize wordCountMax : ℚ) (c : ℤ) : ℚ :=
  let s := sizeFn ((c : ℚ) / wordCountMax) * maxSize
  if s < minSize then minSize else s

/-! ## Helper lemmas -/

theorem testRadiusAux_radius (grid : List Box) (cw ch radius width height : ℚ) :
    ∀ (pts : List Point) (x y : ℚ),
      (testRadiusAux grid cw ch radius width height pts x y).radius = radius := by
  intro pts
  induction pts with
  | nil => intro x y; rfl
  | cons p ps ih =>
    intro x y
    unfold testRadiusAux
    split
    · rfl
    · exact ih p.x p.y

theorem testRadius_radius (grid : List Box) (cw ch radius : ℚ) (points : List Point)
    (width height : ℚ) :
    (testRadius grid cw ch radius points width height).radius = radius :=
  testRadiusAux_radius grid cw ch radius width height points 0 0

theorem testRadiusAux_failed_all (grid : List Box) (cw ch radius width height : ℚ) :
    ∀ (pts : List Point) (x y : ℚ),
      (testRadiusAux grid cw ch radius width height pts x y).failed = true →
      ∀ p ∈ pts, ¬ validPosition grid cw ch p.x p.y width height := by
  intro pts
  induction pts with
  | nil => intro x y _ p hp; cases hp
  | cons p ps ih =>
    intro x y hf q hq
    unfold testRadiusAux at hf
    by_cases hv : validPosition grid cw ch p.x p.y width height
    · rw [if_pos hv] at hf
      simp at hf
    · rw [if_neg hv] at hf
      rcases List.mem_cons.mp hq with h | h
      · subst h; exact hv
      · exact ih p.x p.y hf q h

theorem testRadius_failed_all (grid : List Box) (cw ch radius : ℚ)
    (points : List Point) (width height : ℚ)
    (h : (testRadius grid cw ch radius points width height).failed = true) :
    ∀ p ∈ points, ¬ validPosition grid cw ch p.x p.y width height :=
  testRadiusAux_failed_all grid cw ch radius width height points 0 0 h

theorem testRadiusAux_success_valid (grid : List Box) (cw ch radius width height : ℚ) :
    ∀ (pts : List Point) (x y : ℚ),
      (testRadiusAux grid cw ch radius width height pts x y).failed = false →
      validPosition grid cw ch
        (testRadiusAux grid cw ch radius width height pts x y).x
        (testRadiusAux grid cw ch radius width height pts x y).y width height := by
  intro pts
  induction pts with
  | nil => intro x y hf; simp [testRadiusAux] at hf
  | cons p ps ih =>
    intro x y hf
    unfold testRadiusAux at hf ⊢
    by_cases hv : validPosition grid cw ch p.x p.y width height
    · rw [if_pos hv] at hf ⊢
      exact hv
    · rw [if_neg hv] at hf ⊢
      exact ih p.x p.y hf

theorem testRadius_success_valid (grid : List Box) (cw ch radius : ℚ)
    (points : List Point) (width height : ℚ)
    (h : (testRadius grid cw ch radius points width height).failed = false) :
    validPosition grid cw ch
      (testRadius grid cw ch radius points width height).x
      (testRadius grid cw ch radius points width height).y width height :=
  testRadiusAux_success_valid grid cw ch radius width height points 0 0 h

/-- Any success decision produced by the aggregator's scan comes from a
reported radius whose deterministic result is that success. -/
theorem scanRadii_success_mem (result : ℚ → Res) :
    ∀ (radii done : List ℚ) (res : Res),
      scanRadii result done radii = some (some res) →
      ∃ r ∈ radii, r ∈ done ∧ result r = res ∧ res.failed = false := by
  intro radii
  induction radii with
  | nil => intro done res h; simp [scanRadii] at h
  | cons r rest ih =>
    intro done res h
    unfold scanRadii at h
    by_cases hd : r ∈ done
    · rw [if_pos hd] at h
      by_cases hf : (result r).failed
      · rw [if_pos hf] at h
        obtain ⟨r2, hmem, hdone, heq, hfail⟩ := ih done res h
        exact ⟨r2, List.mem_cons_of_mem _ hmem, hdone, heq, hfail⟩
      · rw [if_neg hf] at h
        obtain rfl : result r = res := by
          injection h with h2
          injection h2
        exact ⟨r, List.mem_cons_self r rest, hd, rfl, Bool.not_eq_true _ ▸ hf⟩
    · rw [if_neg hd] at h
      cases h

/-- The aggregator's scan declares a success final only when every
strictly smaller radius of the (increasing) radii list has reported a
failure. -/
theorem scanRadii_success_minimal (result : ℚ → Res)
    (hrad : ∀ r, (result r).radius = r) :
    ∀ (radii done : List ℚ), List.Pairwise (· < ·) radii →
      ∀ res : Res, scanRadii result done radii = some (some res) →
        ∀ r ∈ radii, r < res.radius → r ∈ done ∧ (result r).failed = true := by
  intro radii
  induction radii with
  | nil => intro done _ res h; simp [scanRadii] at h
  | cons r rest ih =>
    intro done hp res h
    obtain ⟨hhead, htail⟩ := List.pairwise_cons.mp hp
    unfold scanRadii at h
    by_cases hd : r ∈ done
    · rw [if_pos hd] at h
      by_cases hf : (result r).failed
      · rw [if_pos hf] at h
        intro r' hr' hlt
        rcases List.mem_cons.mp hr' with h1 | h1
        · subst h1; exact ⟨hd, hf⟩
        · exact ih done htail res h r' h1 hlt
      · rw [if_neg hf] at h
        obtain rfl : result r = res := by
          injection h with h2
          injection h2
        intro r' hr' hlt
        rw [hrad r] at hlt
        rcases List.mem_cons.mp hr' with h1 | h1
        · subst h1; exact absurd hlt (lt_irrefl r')
        · exact absurd hlt (not_lt.mpr (le_of_lt (hhead r' h1)))
    · rw [if_neg hd] at h
      cases h

/-- Whatever decision the aggregation loop reaches was produced by the
scan over the radii list with the reported set it returns. -/
theorem aggLoop_decided (radii : List ℚ) (result : ℚ → Res) :
    ∀ (arrivals done0 doneF : List ℚ) (d : Option Res),
      aggLoop radii result arrivals done0 = some (doneF, d) →
      scanRadii result doneF radii = some d := by
  intro arrivals
  induction arrivals with
  | nil => intro done0 doneF d h; simp [aggLoop] at h
  | cons a rest ih =>
    intro done0 doneF d h
    unfold aggLoop at h
    dsimp only at h
    cases hs : scanRadii result (a :: done0) radii with
    | none =>
      rw [hs] at h
      exact ih (a :: done0) doneF d h
    | some d2 =>
      rw [hs] at h
      injection h with h2
      injection h2 with h3 h4
      subst h3
      subst h4
      exact hs

/-- A successful concurrent search returns a position whose candidate
rectangle fits the canvas and collides with nothing recorded in the
index (shared helper for the run-level invariants). -/
theorem nextPos_success_valid (grid : List Box) (cw ch width height : ℚ)
    (radii : List ℚ) (positions : ℚ → List Point) (arrivals doneF : List ℚ)
    (res : Res)
    (hrun : nextPos grid cw ch radii positions width height arrivals =
      some (doneF, some res)) :
    validPosition grid cw ch res.x res.y width height := by
  have hscan := aggLoop_decided radii
    (fun r => testRadius grid cw ch r (positions r) width height)
    arrivals [] doneF (some res) hrun
  obtain ⟨r, _, _, heq, hfail⟩ := scanRadii_success_mem _ radii doneF res hscan
  have heq' : testRadius grid cw ch r (positions r) width height = res := heq
  have hv := testRadius_success_valid grid cw ch r (positions r) width height
    (by rw [heq']; exact hfail)
  rw [heq'] at hv
  exact hv

/-- The sizing loop aborts exactly when the running-maximum chain is
violated somewhere in `m :: cs`. -/
theorem sizeLoop_none_iff (sizeFn : ℚ → ℚ) (minSize maxSize W : ℚ) :
    ∀ (cs : List ℤ) (m : ℤ),
      sizeLoop sizeFn minSize maxSize W cs m = none ↔
        ¬ List.Chain' (fun a b => b ≤ a) (m :: cs) := by
  intro cs
  induction cs with
  | nil =>
    intro m
    simp [sizeLoop]
  | cons c rest ih =>
    intro m
    unfold sizeLoop
    rw [List.chain'_cons]
    by_cases hcm : c > m
    · rw [if_pos hcm]
      constructor
      · intro _ h
        exact absurd h.1 (not_le.mpr hcm)
      · intro _
        rfl
    · rw [if_neg hcm]
      dsimp only
      have hcm2 : c ≤ m := not_lt.mp hcm
      cases hrec : sizeLoop sizeFn minSize maxSize W rest c with
      | none =>
        simp only [hrec]
        constructor
        · intro _ hand
          exact ((ih c).mp hrec) hand.2
        · intro _
          trivial
      | some tl =>
        simp only [hrec]
        constructor
        · intro h
          cases h
        · intro hn
          exfalso
          refine hn ⟨hcm2, ?_⟩
          by_contra hc
          rw [(ih c).mpr hc] at hrec
          cases hrec

/-- Every size assigned by the sizing-loop body is at least the
configured minimum (the clamp). -/
theorem assignSize_min (sizeFn : ℚ → ℚ) (minSize maxSize W : ℚ) (c : ℤ) :
    minSize ≤ assignSize sizeFn minSize maxSize W c := by
  unfold assignSize
  dsimp only
  by_cases h : sizeFn ((c : ℚ) / W) * maxSize < minSize
  · rw [if_pos h]
  · rw [if_neg h]
    exact not_lt.mp h

/-- The sizing-loop body is monotone in the count, for a monotone sizing
function, non-negative maximum size and positive maximum count. -/
theorem assignSize_mono (sizeFn : ℚ → ℚ) (minSize maxSize W : ℚ)
    (hm : Monotone sizeFn) (hmax : 0 ≤ maxSize) (hW : 0 < W) {a b : ℤ}
    (hab : b ≤ a) :
    assignSize sizeFn minSize maxSize W b ≤ assignSize sizeFn minSize maxSize W a := by
  unfold assignSize
  dsimp only
  have hs : sizeFn ((b : ℚ) / W) * maxSize ≤ sizeFn ((a : ℚ) / W) * maxSize := by
    refine mul_le_mul_of_nonneg_right (hm ?_) hmax
    exact (div_le_div_right hW).mpr (by exact_mod_cast hab)
  by_cases hb : sizeFn ((b : ℚ) / W) * maxSize < minSize
  · rw [if_pos hb]
    by_cases ha : sizeFn ((a : ℚ) / W) * maxSize < minSize
    · rw [if_pos ha]
    · rw [if_neg ha]
      exact not_lt.mp ha
  · rw [if_neg hb]
    have ha : ¬ (sizeFn ((a : ℚ) / W) * maxSize < minSize) :=
      fun h => hb (lt_of_le_of_lt hs h)
    rw [if_neg ha]
    exact hs

/-- On a chain-respecting input the sizing loop assigns exactly the
per-count size to every count. -/
theorem sizeLoop_eq_map (sizeFn : ℚ → ℚ) (minSize maxSize W : ℚ) :
    ∀ (cs : List ℤ) (m : ℤ), List.Chain' (fun a b => b ≤ a) (m :: cs) →
      sizeLoop sizeFn minSize maxSize W cs m =
        some (cs.map (assignSize sizeFn minSize maxSize W)) := by
  intro cs
  induction cs with
  | nil =>
    intro m _
    rfl
  | cons c rest ih =>
    intro m hch
    rw [List.chain'_cons] at hch
    obtain ⟨hcm, hrest⟩ := hch
    unfold sizeLoop
    rw [if_neg (not_lt.mpr hcm)]
    dsimp only
    rw [ih c hrest]
    rfl

/-- Specification of the fallback-search loop: the attempt counter never
exceeds the starting count plus the fuel, any returned position is
valid, and the loop returns no position exactly when no sample in its
window is valid. -/
theorem nextRandomLoop_spec (grid : List Box) (cw ch width height : ℚ)
    (samples : ℕ → ℚ × ℚ) :
    ∀ (fuel tries : ℕ),
      ((nextRandomLoop grid cw ch width height samples fuel tries).2 ≤ tries + fuel) ∧
      (∀ x y,
        (nextRandomLoop grid cw ch width height samples fuel tries).1 = some (x, y) →
        validPosition grid cw ch x y width height) ∧
      ((nextRandomLoop grid cw ch width height samples fuel tries).1 = none ↔
        ∀ k, tries ≤ k → k < tries + fuel →
          ¬ validPosition grid cw ch (samples k).1 (samples k).2 width height) := by
  intro fuel
  induction fuel with
  | zero =>
    intro tries
    refine ⟨by simp [nextRandomLoop], ?_, ?_⟩
    · intro x y h
      simp [nextRandomLoop] at h
    · simp only [nextRandomLoop]
      constructor
      · intro _ k hk1 hk2
        omega
      · intro _
        trivial
  | succ fuel ih =>
    intro tries
    unfold nextRandomLoop
    dsimp only
    by_cases hv : validPosition grid cw ch (samples tries).1 (samples tries).2
        width height
    · rw [if_pos hv]
      refine ⟨by omega, ?_, ?_⟩
      · intro x y h
        simp only at h
        injection h with h2
        injection h2 with hx hy
        subst hx
        subst hy
        exact hv
      · constructor
        · intro h
          cases h
        · intro hall
          exact absurd hv (hall tries (le_refl _) (by omega))
    · rw [if_neg hv]
      obtain ⟨ih1, ih2, ih3⟩ := ih (tries + 1)
      refine ⟨by omega, ih2, ?_⟩
      rw [ih3]
      constructor
      · intro hall k hk1 hk2
        rcases eq_or_lt_of_le hk1 with h | h
        · subst h
          exact hv
        · exact hall k (by omega) (by omega)
      · intro hall k hk1 hk2
        exact hall k (by omega) (by omega)

/-- One step of the fallback loop: a valid sample is returned at once,
consuming a single attempt. -/
theorem nextRandomLoop_first_valid (grid : List Box) (cw ch width height : ℚ)
    (samples : ℕ → ℚ × ℚ) (fuel tries : ℕ)
    (hv : validPosition grid cw ch (samples tries).1 (samples tries).2 width height) :
    nextRandomLoop grid cw ch width height samples (fuel + 1) tries =
      (some ((samples tries).1, (samples tries).2), tries + 1) := by
  unfold nextRandomLoop
  dsimp only
  rw [if_pos hv]

/-! ## Claims -/

/-- C1: if the concurrent nearest-position search returns success with a
position on the ring of radius `res.radius`, then no candidate point on
any ring with strictly smaller radius yields a rectangle that both fits
the canvas and avoids every recorded rectangle; moreover the aggregator
declared that radius final only after every strictly smaller radius had
reported (is in the reported set at decision time), and the winning
result is the deterministic ring test of its own radius. -/
theorem nextPos_minimal (grid : List Box) (cw ch width height : ℚ)
    (radii : List ℚ) (positions : ℚ → List Point)
    (arrivals doneF : List ℚ) (res : Res)
    (hsorted : List.Pairwise (· < ·) radii)
    (hrun : nextPos grid cw ch radii positions width height arrivals =
      some (doneF, some res)) :
    res.failed = false ∧
    res.radius ∈ radii ∧
    testRadius grid cw ch res.radius (positions res.radius) width height = res ∧
    ∀ r ∈ radii, r < res.radius →
      r ∈ doneF ∧
      (testRadius grid cw ch r (positions r) width height).failed = true ∧
      ∀ p ∈ positions r, ¬ validPosition grid cw ch p.x p.y width height := by
  have hscan := aggLoop_decided radii
    (fun r => testRadius grid cw ch r (positions r) width height)
    arrivals [] doneF (some res) hrun
  obtain ⟨r, hmem, _, heq, hfail⟩ := scanRadii_success_mem _ radii doneF res hscan
  have heq' : testRadius grid cw ch r (positions r) width height = res := heq
  have hrad : ∀ r2, ((fun r2 => testRadius grid cw ch r2 (positions r2) width height) r2).radius = r2 :=
    fun r2 => testRadius_radius grid cw ch r2 (positions r2) width height
  have hr : res.radius = r := by
    rw [← heq']
    exact testRadius_radius grid cw ch r (positions r) width height
  refine ⟨hfail, ?_, ?_, ?_⟩
  · rw [hr]; exact hmem
  · rw [hr]; exact heq'
  · intro r' hr' hlt
    have hmin := scanRadii_success_minimal _ hrad radii doneF hsorted res hscan r' hr' hlt
    have hfl : (testRadius grid cw ch r' (positions r') width height).failed = true := hmin.2
    exact ⟨hmin.1, hfl,
      testRadius_failed_all grid cw ch r' (positions r') width height hfl⟩

/-- C1 witness: canvas 100×100, word box 10×10, rings at radii 1 and 6
whose single candidate points are (300, 50) and (50, 50); the result for
radius 6 arrives first and the aggregator waits for radius 1 before
declaring radius 6 final; the theorem then yields that the radius-1
candidate point admits no valid rectangle. -/
theorem nextPos_minimal_witness :
    ¬ validPosition [] 100 100 300 50 10 10 := by
  have h := nextPos_minimal [] 100 100 10 10 [1, 6]
    (fun r => [⟨350 - 50 * r, 50⟩]) [6, 1] [1, 6] ⟨6, 50, 50, false⟩
    (by norm_num [List.pairwise_cons])
    (by norm_num [nextPos, aggLoop, scanRadii, testRadius, testRadiusAux,
      validPosition, candidateBox, Box.fits, TestCollision])
  have h2 := (h.2.2.2 1 (by norm_num) (by norm_num)).2.2
    ⟨350 - 50 * 1, 50⟩ (by norm_num)
  have h3 : ¬ validPosition [] 100 100 (350 - 50 * 1 : ℚ) 50 10 10 := h2
  norm_num at h3
  exact h3

/-- C2 counterexample: a successful placement that inserts a rectangle
violating `fits`.  Canvas 100×100, word measured 5×15 (glyph box 10×20
after padding), single ring whose candidate point is (50, 90): the
tested candidate box (top edge exactly at 100) fits and is free, so the
placement succeeds, but the rectangle actually inserted has its top edge
at `100 + 0.3·20 = 106 > 100` and does not fit the canvas. -/
theorem place_fits_cex :
    (Place 100 100 [1] (fun _ => [⟨50, 90⟩]) (fun _ => []) (fun _ => (5, 15))
        [1] 0 ⟨[], [none], [(0, 0)]⟩).1 = true ∧
    (Place 100 100 [1] (fun _ => [⟨50, 90⟩]) (fun _ => []) (fun _ => (5, 15))
        [1] 0 ⟨[], [none], [(0, 0)]⟩).2.grid = [⟨106, 45, 55, 80⟩] ∧
    ¬ (Box.mk 106 45 55 80).fits 100 100 := by
  norm_num [Place, nextPos, aggLoop, scanRadii, testRadius, testRadiusAux,
    validPosition, candidateBox, Box.fits, TestCollision, insertedBox]

/-- C2 (amended): for every successful placement of a word on the coarse
path (glyph height ≤ 40), the inserted rectangle's left, right and
bottom edges lie within the canvas, and its top edge exceeds the canvas
height by at most `0.3 ·` the glyph height; the tested candidate box
itself fits, but the inserted rectangle extends it upward by
`0.3 · height`, so `fits(rect, width, height)` itself can fail (see the
counterexample). -/
theorem place_fits_amended (cw ch : ℚ) (radii : List ℚ)
    (positions : ℚ → List Point) (refine : Box → List Box)
    (measured : ℕ → ℚ × ℚ) (arrivals : List ℚ) (idx : ℕ) (st st' : RunSt)
    (hheight : (measured idx).2 + 5 ≤ 40)
    (hplace : Place cw ch radii positions refine measured arrivals idx st =
      (true, st')) :
    ∃ b : Box, st'.grid = st.grid ++ [b] ∧
      0 ≤ b.left ∧ b.right ≤ cw ∧ 0 ≤ b.bottom ∧
      b.top ≤ ch + 3 / 10 * ((measured idx).2 + 5) := by
  unfold Place at hplace
  dsimp only at hplace
  cases hrun : nextPos st.grid cw ch radii positions ((measured idx).1 + 5)
      ((measured idx).2 + 5) arrivals with
  | none => rw [hrun] at hplace; cases hplace
  | some pr =>
    obtain ⟨doneF, decision⟩ := pr
    cases decision with
    | none => rw [hrun] at hplace; cases hplace
    | some r =>
      rw [hrun] at hplace
      have hvalid := nextPos_success_valid st.grid cw ch ((measured idx).1 + 5)
        ((measured idx).2 + 5) radii positions arrivals doneF r hrun
      obtain ⟨hfits, -⟩ := hvalid
      obtain ⟨hl, hr, hb, ht⟩ := hfits
      injection hplace with h1 h2
      refine ⟨insertedBox r.x r.y ((measured idx).1 + 5) ((measured idx).2 + 5),
        ?_, ?_, ?_, ?_, ?_⟩
      · rw [← h2]
        have : ¬ (40 < (measured idx).2 + 5) := not_lt.mpr hheight
        simp [this]
      · exact hl
      · exact hr
      · exact le_max_right _ _
      · exact add_le_add_right ht _

/-- C3 counterexample: a run of two words (each glyph box 20×20) on a
100×100 canvas, one ring with candidate points (50, 50) then (50, 30).
Word 0 is placed at (50, 50) and the index records a rectangle whose top
edge was extended to 66; word 1's candidate box at (50, 30) (top edge
40, exactly touching the recorded bottom edge) passes the collision
test, yet the rectangle inserted for word 1 has top edge 46 — the two
rectangles recorded by the run overlap. -/
theorem no_overlap_cex :
    (drawModel 100 100 [1] (fun _ => [⟨50, 50⟩, ⟨50, 30⟩]) (fun _ => [])
        (fun _ => (15, 15)) [1] 2
        ⟨[], [none, none], [(0, 0), (0, 0)]⟩).1.grid =
      [⟨66, 40, 60, 40⟩, ⟨46, 40, 60, 20⟩] ∧
    (Box.mk 66 40 60 40).overlaps ⟨46, 40, 60, 20⟩ := by
  norm_num [drawModel, drawLoop, List.range_succ, Place, nextPos, aggLoop,
    scanRadii, testRadius, testRadiusAux, validPosition, candidateBox,
    Box.fits, TestCollision, insertedBox, Box.overlaps]

/-- C3 (amended): for every successful placement, the tested candidate
rectangle of the winning position overlaps no rectangle recorded in the
index at the time of the search; the rectangle actually inserted extends
that candidate box upward by `0.3 · height`, and such inserted
rectangles can overlap each other (see the counterexample). -/
theorem place_no_overlap_amended (cw ch : ℚ) (radii : List ℚ)
    (positions : ℚ → List Point) (refine : Box → List Box)
    (measured : ℕ → ℚ × ℚ) (arrivals : List ℚ) (idx : ℕ) (st st' : RunSt)
    (hplace : Place cw ch radii positions refine measured arrivals idx st =
      (true, st')) :
    ∃ x y : ℚ,
      st'.pos = st.pos.set idx (some (x - (measured idx).1 / 2, y - (measured idx).2 / 2)) ∧
      ∀ a ∈ st.grid,
        ¬ a.overlaps (candidateBox x y ((measured idx).1 + 5) ((measured idx).2 + 5)) := by
  unfold Place at hplace
  dsimp only at hplace
  cases hrun : nextPos st.grid cw ch radii positions ((measured idx).1 + 5)
      ((measured idx).2 + 5) arrivals with
  | none => rw [hrun] at hplace; cases hplace
  | some pr =>
    obtain ⟨doneF, decision⟩ := pr
    cases decision with
    | none => rw [hrun] at hplace; cases hplace
    | some r =>
      rw [hrun] at hplace
      have hvalid := nextPos_success_valid st.grid cw ch ((measured idx).1 + 5)
        ((measured idx).2 + 5) radii positions arrivals doneF r hrun
      obtain ⟨-, hnc⟩ := hvalid
      injection hplace with h1 h2
      refine ⟨r.x, r.y, ?_, ?_⟩
      · rw [← h2]
        have e1 : (measured idx).1 + 5 - 5 = (measured idx).1 := by ring
        have e2 : (measured idx).2 + 5 - 5 = (measured idx).2 := by ring
        simp [e1, e2]
      · intro a ha hov
        exact hnc ⟨a, ha, hov⟩

/-- C5: the driving loop stops the placement pass as soon as more than
10 consecutive placements have failed and resets the counter on every
success: with the first five words placed and every later placement
failing, exactly the first 16 words (indices 0–15) are attempted —
no word past the 16th is — and 5 words end up placed.  The loop is the
code's `Draw` skeleton; per-word placement is abstracted to its boolean
outcome `p`, the only data the loop inspects, with the state counting
successful placements. -/
theorem draw_early_exit (p : ℕ → Bool) (l : ℕ) (hl : 16 ≤ l)
    (hsucc : ∀ i, i < 5 → p i = true) (hfail : ∀ i, 5 ≤ i → p i = false) :
    drawLoop (fun i n => (p i, if p i then n + 1 else n)) (List.range l) 0 0 =
      (5, List.range 16) := by
  obtain ⟨k, rfl⟩ : ∃ k, l = 16 + k := ⟨l - 16, by omega⟩
  rw [List.range_add]
  have e : List.range 16 = [0, 1, 2, 3, 4, 5, 6, 7, 8, 9, 10, 11, 12, 13, 14, 15] := rfl
  rw [e]
  have h0 := hsucc 0 (by norm_num)
  have h1 := hsucc 1 (by norm_num)
  have h2 := hsucc 2 (by norm_num)
  have h3 := hsucc 3 (by norm_num)
  have h4 := hsucc 4 (by norm_num)
  have f5 := hfail 5 (by norm_num)
  have f6 := hfail 6 (by norm_num)
  have f7 := hfail 7 (by norm_num)
  have f8 := hfail 8 (by norm_num)
  have f9 := hfail 9 (by norm_num)
  have f10 := hfail 10 (by norm_num)
  have f11 := hfail 11 (by norm_num)
  have f12 := hfail 12 (by norm_num)
  have f13 := hfail 13 (by norm_num)
  have f14 := hfail 14 (by norm_num)
  have f15 := hfail 15 (by norm_num)
  simp only [List.cons_append, List.nil_append]
  simp [drawLoop, h0, h1, h2, h3, h4, f5, f6, f7, f8, f9, f10, f11, f12,
    f13, f14, f15]

/-- C5 witness: 20 words, the first five placeable and the rest not;
the pass attempts exactly words 0–15 and places 5. -/
theorem draw_early_exit_witness :
    drawLoop (fun i n => (decide (i < 5), if decide (i < 5) then n + 1 else n))
      (List.range 20) 0 0 = (5, List.range 16) :=
  draw_early_exit (fun i => decide (i < 5)) 20 (by norm_num)
    (fun i h => by simp [h]) (fun i h => by simp; omega)

/-- C6: when the search finds no position (`nextPos` reports exhaustive
failure), `Place` returns false, leaves the occupancy index unmodified,
records the word's position as the unplaced sentinel and its rectangle
as zero; and the driving loop, as long as the consecutive-miss counter
stays within bounds, goes on with the remaining words instead of
aborting the run. -/
theorem place_miss (cw ch : ℚ) (radii : List ℚ) (positions : ℚ → List Point)
    (refine : Box → List Box) (measured : ℕ → ℚ × ℚ) (arrivals : List ℚ)
    (idx : ℕ) (st : RunSt) (d : List ℚ)
    (hfail : nextPos st.grid cw ch radii positions ((measured idx).1 + 5)
      ((measured idx).2 + 5) arrivals = some (d, none)) :
    Place cw ch radii positions refine measured arrivals idx st =
      (false, ⟨st.grid, st.pos.set idx none, st.rect.set idx (0, 0)⟩) ∧
    ∀ (rest : List ℕ) (misses : ℕ), misses + 1 ≤ 10 →
      drawLoop (Place cw ch radii positions refine measured arrivals)
          (idx :: rest) misses st =
        ((drawLoop (Place cw ch radii positions refine measured arrivals) rest
            (misses + 1) ⟨st.grid, st.pos.set idx none, st.rect.set idx (0, 0)⟩).1,
          idx :: (drawLoop (Place cw ch radii positions refine measured arrivals) rest
            (misses + 1) ⟨st.grid, st.pos.set idx none, st.rect.set idx (0, 0)⟩).2) := by
  have hp : Place cw ch radii positions refine measured arrivals idx st =
      (false, ⟨st.grid, st.pos.set idx none, st.rect.set idx (0, 0)⟩) := by
    unfold Place
    dsimp only
    rw [hfail]
  refine ⟨hp, ?_⟩
  intro rest misses hm
  have hgt : ¬ (misses + 1 > 10) := by omega
  have step : drawLoop (Place cw ch radii positions refine measured arrivals)
      (idx :: rest) misses st =
      (if (Place cw ch radii positions refine measured arrivals idx st).1 then
        ((drawLoop (Place cw ch radii positions refine measured arrivals) rest 0
            (Place cw ch radii positions refine measured arrivals idx st).2).1,
          idx :: (drawLoop (Place cw ch radii positions refine measured arrivals) rest 0
            (Place cw ch radii positions refine measured arrivals idx st).2).2)
      else if misses + 1 > 10 then
        ((Place cw ch radii positions refine measured arrivals idx st).2, [idx])
      else
        ((drawLoop (Place cw ch radii positions refine measured arrivals) rest
            (misses + 1) (Place cw ch radii positions refine measured arrivals idx st).2).1,
          idx :: (drawLoop (Place cw ch radii positions refine measured arrivals) rest
            (misses + 1) (Place cw ch radii positions refine measured arrivals idx st).2).2)) := rfl
  rw [step, hp]
  simp [hgt]

/-- C6 witness: a word whose only ring is empty fails to place; the
index, sentinel position, zero rectangle and loop continuation are as
stated. -/
theorem place_miss_witness :
    Place 100 100 [1] (fun _ => []) (fun _ => []) (fun _ => (5, 5)) [1] 0
        ⟨[], [none], [(0, 0)]⟩ = (false, ⟨[], [none], [(0, 0)]⟩) ∧
    drawLoop (Place 100 100 [1] (fun _ => []) (fun _ => []) (fun _ => (5, 5)) [1])
        [0] 0 ⟨[], [none], [(0, 0)]⟩ = (⟨[], [none], [(0, 0)]⟩, [0]) := by
  have h := place_miss 100 100 [1] (fun _ => []) (fun _ => []) (fun _ => (5, 5))
    [1] 0 ⟨[], [none], [(0, 0)]⟩ [1]
    (by norm_num [nextPos, aggLoop, scanRadii, testRadius, testRadiusAux])
  exact ⟨h.1, h.2 [] 0 (by norm_num)⟩

/-- C2 (amended) witness: the concrete successful placement of the C2
counterexample satisfies the amended bounds — left, right and bottom
edges inside the 100×100 canvas and top edge within the canvas height
plus `0.3 ·` the glyph height 20. -/
theorem place_fits_amended_witness :
    0 ≤ (Box.mk 106 45 55 80).left ∧ (Box.mk 106 45 55 80).right ≤ 100 ∧
    0 ≤ (Box.mk 106 45 55 80).bottom ∧
    (Box.mk 106 45 55 80).top ≤ 100 + 3 / 10 * (15 + 5) := by
  have h := place_fits_amended 100 100 [1] (fun _ => [⟨50, 90⟩]) (fun _ => [])
    (fun _ => (5, 15)) [1] 0 ⟨[], [none], [(0, 0)]⟩
    ⟨[⟨106, 45, 55, 80⟩], [some (95 / 2, 165 / 2)], [(5, 15)]⟩
    (by norm_num)
    (by norm_num [Place, nextPos, aggLoop, scanRadii, testRadius,
      testRadiusAux, validPosition, candidateBox, Box.fits, TestCollision,
      insertedBox])
  obtain ⟨b, hg, hb⟩ := h
  have hbv : b = ⟨106, 45, 55, 80⟩ := by
    have : ([⟨106, 45, 55, 80⟩] : List Box) = [b] := hg
    simpa using this.symm
  rw [hbv] at hb
  exact hb

/-- C3 (amended) witness: with the rectangle recorded for the first word
of the C3 counterexample already in the index, the second word's tested
candidate box does not overlap it (even though the rectangle then
inserted for the second word does). -/
theorem place_no_overlap_amended_witness :
    ¬ (Box.mk 66 40 60 40).overlaps (candidateBox 50 30 (15 + 5) (15 + 5)) := by
  have h := place_no_overlap_amended 100 100 [1]
    (fun _ => [⟨50, 50⟩, ⟨50, 30⟩]) (fun _ => []) (fun _ => (15, 15)) [1] 1
    ⟨[⟨66, 40, 60, 40⟩], [some (85 / 2, 85 / 2), none], [(15, 15), (0, 0)]⟩
    ⟨[⟨66, 40, 60, 40⟩, ⟨46, 40, 60, 20⟩],
      [some (85 / 2, 85 / 2), some (85 / 2, 45 / 2)], [(15, 15), (15, 15)]⟩
    (by norm_num [Place, nextPos, aggLoop, scanRadii, testRadius,
      testRadiusAux, validPosition, candidateBox, Box.fits, TestCollision,
      insertedBox, Box.overlaps])
  obtain ⟨x, y, hpos, hno⟩ := h
  simp at hpos
  obtain ⟨hx, hy⟩ := hpos
  have hx2 : x = 50 := by linarith
  have hy2 : y = 30 := by linarith
  subst hx2
  subst hy2
  exact hno ⟨66, 40, 60, 40⟩ (by simp)

/-- C7: the size-assignment pass of `NewWordcloud` aborts (panics
"not sorted") exactly when the counts are not in non-increasing order,
i.e. when some count strictly exceeds the count before it; on every
input sorted by non-increasing count it completes and returns the
assigned sizes. -/
theorem sizePass_abort_iff (sizeFn : ℚ → ℚ) (minSize maxSize : ℚ)
    (c0 : ℤ) (rest : List ℤ) :
    (newWordcloudSizes (c0 :: rest) sizeFn minSize maxSize = .panicNotSorted ↔
      ¬ List.Chain' (fun a b => b ≤ a) (c0 :: rest)) ∧
    (List.Chain' (fun a b => b ≤ a) (c0 :: rest) →
      ∃ sizes, newWordcloudSizes (c0 :: rest) sizeFn minSize maxSize = .ok sizes) := by
  have hiff := sizeLoop_none_iff sizeFn minSize maxSize (c0 : ℚ) (c0 :: rest) c0
  have hch : List.Chain' (fun a b : ℤ => b ≤ a) (c0 :: c0 :: rest) ↔
      List.Chain' (fun a b : ℤ => b ≤ a) (c0 :: rest) := by
    rw [List.chain'_cons]
    simp
  unfold newWordcloudSizes
  dsimp only
  cases hrec : sizeLoop sizeFn minSize maxSize (c0 : ℚ) (c0 :: rest) c0 with
  | none =>
    have hnot : ¬ List.Chain' (fun a b : ℤ => b ≤ a) (c0 :: rest) :=
      fun hc => (hiff.mp hrec) (hch.mpr hc)
    constructor
    · exact ⟨fun _ => hnot, fun _ => rfl⟩
    · intro hc
      exact absurd hc hnot
  | some sizes =>
    have hc2 : List.Chain' (fun a b : ℤ => b ≤ a) (c0 :: c0 :: rest) := by
      by_contra hc
      rw [hiff.mpr hc] at hrec
      cases hrec
    constructor
    · constructor
      · intro h
        cases h
      · intro hn
        exact absurd (hch.mp hc2) hn
    · intro _
      exact ⟨sizes, rfl⟩

/-- C7 witness: ascending counts [5, 10] make the sizing pass fail
fast. -/
theorem sizePass_abort_iff_witness :
    newWordcloudSizes [5, 10] (fun q => q) 0 10 = .panicNotSorted :=
  (sizePass_abort_iff (fun q => q) 0 10 5 [10]).1.mpr
    (by norm_num [List.chain'_cons])

/-- C8: for a word list with non-increasing positive counts and a
monotonically increasing sizing function (with a non-negative maximum
font size), the assigned sizes are `assignSize` mapped over the counts:
they are non-increasing in the same order, and each is at least the
configured minimum font size (the clamp applies after interpolating
`count / maxCount` scaled by the maximum size). -/
theorem sizes_monotone (sizeFn : ℚ → ℚ) (minSize maxSize : ℚ) (c0 : ℤ)
    (rest : List ℤ) (hpos : 0 < c0) (hm : Monotone sizeFn) (hmax : 0 ≤ maxSize)
    (hsorted : List.Chain' (fun a b => b ≤ a) (c0 :: rest)) :
    newWordcloudSizes (c0 :: rest) sizeFn minSize maxSize =
      .ok ((c0 :: rest).map (assignSize sizeFn minSize maxSize (c0 : ℚ))) ∧
    List.Chain' (fun a b : ℚ => b ≤ a)
      ((c0 :: rest).map (assignSize sizeFn minSize maxSize (c0 : ℚ))) ∧
    ∀ s ∈ (c0 :: rest).map (assignSize sizeFn minSize maxSize (c0 : ℚ)),
      minSize ≤ s := by
  have hW : (0 : ℚ) < (c0 : ℚ) := by exact_mod_cast hpos
  refine ⟨?_, ?_, ?_⟩
  · unfold newWordcloudSizes
    dsimp only
    rw [sizeLoop_eq_map sizeFn minSize maxSize (c0 : ℚ) (c0 :: rest) c0
      (List.chain'_cons.mpr ⟨le_refl c0, hsorted⟩)]
  · rw [List.chain'_map]
    exact hsorted.imp (fun a b hab => assignSize_mono sizeFn minSize maxSize
      (c0 : ℚ) hm hmax hW hab)
  · intro s hs
    rw [List.mem_map] at hs
    obtain ⟨c, -, rfl⟩ := hs
    exact assignSize_min sizeFn minSize maxSize (c0 : ℚ) c

/-- C8 witness: counts [100, 80, 80, 10] with the identity sizing
function, minimum size 3 and maximum size 10 yield the non-increasing
sizes [10, 8, 8, 3], the last clamped up to the minimum. -/
theorem sizes_monotone_witness :
    newWordcloudSizes [100, 80, 80, 10] (fun q => q) 3 10 = .ok [10, 8, 8, 3] := by
  have h := sizes_monotone (fun q => q) 3 10 100 [80, 80, 10] (by norm_num)
    (fun a b hab => hab) (by norm_num) (by norm_num [List.chain'_cons])
  rw [h.1]
  norm_num [assignSize]

/-- C9: the random-fallback search performs at most 5,000,000 attempts;
any returned position is valid (the sampled box fits the canvas and
collides with no recorded rectangle); and it returns no position exactly
when none of the first 5,000,000 samples is valid. -/
theorem nextRandom_budget (grid : List Box) (cw ch width height : ℚ)
    (samples : ℕ → ℚ × ℚ) :
    ((nextRandom grid cw ch width height samples).2 ≤ 5000000) ∧
    (∀ x y, (nextRandom grid cw ch width height samples).1 = some (x, y) →
      validPosition grid cw ch x y width height) ∧
    ((nextRandom grid cw ch width height samples).1 = none ↔
      ∀ k < 5000000,
        ¬ validPosition grid cw ch (samples k).1 (samples k).2 width height) := by
  obtain ⟨h1, h2, h3⟩ := nextRandomLoop_spec grid cw ch width height samples 5000000 0
  refine ⟨by simpa using h1, h2, ?_⟩
  show (nextRandomLoop grid cw ch width height samples 5000000 0).1 = none ↔ _
  rw [h3]
  constructor
  · intro h k hk
    exact h k (Nat.zero_le k) (by omega)
  · intro h k _ hk
    exact h k (by omega)

/-- C9 witness: with an empty index and the constant sample (50, 50) on
a 100×100 canvas, the fallback returns that position on its first
attempt; the theorem yields its validity and the attempt bound. -/
theorem nextRandom_budget_witness :
    validPosition [] 100 100 50 50 10 10 ∧
    (nextRandom [] 100 100 10 10 (fun _ => (50, 50))).2 ≤ 5000000 := by
  have h := nextRandom_budget [] 100 100 10 10 (fun _ => (50, 50))
  refine ⟨h.2.1 50 50 ?_, h.1⟩
  show (nextRandomLoop [] 100 100 10 10 (fun _ => (50, 50)) 5000000 0).1 =
    some (50, 50)
  rw [show (5000000 : ℕ) = 4999999 + 1 from rfl]
  rw [nextRandomLoop_first_valid [] 100 100 10 10 (fun _ => (50, 50)) 4999999 0
    (by norm_num [validPosition, candidateBox, Box.fits, TestCollision])]

/-- C10: engine construction reads the first word's count
unconditionally, so it aborts (out-of-range access) exactly on the empty
word list; for a non-empty list construction proceeds past that read. -/
theorem newWordcloud_empty_aborts (counts : List ℤ) (sizeFn : ℚ → ℚ)
    (minSize maxSize : ℚ) :
    newWordcloudSizes counts sizeFn minSize maxSize = .panicEmpty ↔
      counts = [] := by
  cases counts with
  | nil => simp [newWordcloudSizes]
  | cons c rest =>
    unfold newWordcloudSizes
    dsimp only
    cases hrec : sizeLoop sizeFn minSize maxSize (c : ℚ) (c :: rest) c with
    | none => simp [hrec]
    | some sizes => simp [hrec]

/-- C10 witness: the empty word list aborts engine construction. -/
theorem newWordcloud_empty_aborts_witness :
    newWordcloudSizes [] (fun q => q) 0 0 = .panicEmpty :=
  (newWordcloud_empty_aborts [] (fun q => q) 0 0).mpr rfl

end Wordclouds
